import Mathlib

/-!
Shallow embedding of `src/base.rs` of the `reckon` crate: a minimal
"expect"-style subprocess interaction engine.  The embedding models the
two primitives `Process::emit` and `Process::expect`, the `Drop`
destructor, and the slices of the standard library and of the `regex`
crate that their behaviour depends on.  The subprocess's output stream is
modelled as a finite trace of read events, each paired with the elapsed
time observed by the loop just before that read.
-/

set_option autoImplicit false

namespace Reckon

/-- One result of `stdout.chars().next()` in `Process::expect`
(`src/base.rs` lines 162-168): `noData` models `None` (no byte
available right now, or end of file), `invalid` models `Some(Err(_))`
(an undecodable unit in the UTF-8 stream, or a read error), and
`char c` models `Some(Ok(c))` (a successfully decoded character). -/
inductive ReadEvent where
  | noData
  | invalid
  | char (c : Char)
  deriving DecidableEq

/-- The subprocess's output stream as seen by one or more `expect` calls: a
finite list of read events, each paired with the value of
`start_time.elapsed()` (in abstract time units) that the loop observes at
the top of the iteration that would consume this event. -/
abbrev Trace := List (Nat × ReadEvent)

/-- A pattern abstracted by its `RegexSet` search semantics: `p b = true`
means the regular expression matches somewhere inside (some substring of)
the haystack `b`. -/
abbrev Pat := String → Bool

/-- The pattern that matches no haystack; used as the out-of-range default
for `List.getD`. -/
def pfalse : Pat := fun _ => false

/-- One needle handed to `Process::expect` (`needles: Vec<&str>`),
abstracted by the two facts about it that the function's control flow
depends on: whether it compiles as a regular expression (`valid`), and
its search predicate (`sat`). -/
structure Needle where
  valid : Bool
  sat : Pat

/-- The out-of-range default needle (never matching, valid). -/
def dNeedle : Needle := { valid := true, sat := pfalse }

/-- Model of `regex::RegexSet::new(&needles)` (`src/base.rs` line 151):
compilation succeeds, yielding the list of search predicates, exactly when
every needle is a valid regular expression; an empty needle list compiles
to the empty set. -/
def regexSetNew (ns : List Needle) : Option (List Pat) :=
  if ns.all (·.valid) then some (ns.map (·.sat)) else none

/-- Model of `rs.matches(&b).into_iter()` (`src/base.rs` line 170): the
`regex` crate yields the indices of the patterns that match the haystack,
in ascending index order. -/
def setMatches (pats : List Pat) (b : String) : List Nat :=
  (List.range pats.length).filter (fun i => pats.getD i pfalse b)

/-- Model of `std::io::ErrorKind` restricted to what `expect` can name:
the code constructs only `ErrorKind::TimedOut` (`src/base.rs` line 175);
`other` stands for every other kind (e.g. a genuine I/O error), present so
that unreachability of non-timeout errors is a statement, not a typing
accident. -/
inductive ErrKind where
  | timedOut
  | other
  deriving DecidableEq

/-- Outcome of one `Process::expect` call.  `ok n acc` models
`Ok((n, b))`; `err k payload` models `Err(Error::new(k, b))`; `panicked`
models a panic escaping the call (the `unwrap()` on `RegexSet::new`);
`incomplete acc` is a modelling artifact only: it marks a trace that ended
before the loop reached a match or the timeout (the real loop would simply
keep polling), and is never an outcome of a completed call. -/
inductive Outcome where
  | ok (idx : Nat) (acc : String)
  | err (k : ErrKind) (payload : String)
  | panicked
  | incomplete (acc : String)
  deriving DecidableEq

/-- The accumulator carried by an outcome, when there is one. -/
def Outcome.accOf : Outcome → Option String
  | .ok _ a => some a
  | .err _ a => some a
  | .panicked => none
  | .incomplete a => some a

/-- Model of the `loop` in `Process::expect` (`src/base.rs` lines
155-175).  At each iteration the elapsed-time check runs first
(`if e >= timeout break`, returning the timeout error with the
accumulator); only then is the next unit read, so the unit paired with a
break iteration is left unconsumed in the returned remainder.  A decoded
character is pushed onto the accumulator and the pattern set is searched
immediately; the first (lowest) matching index returns.  `noData` and
`invalid` are silently skipped.  The function returns the outcome together
with the unconsumed remainder of the trace. -/
def expectLoop (pats : List Pat) (timeout : Nat) : Trace → String → Outcome × Trace
  | [], b => (.incomplete b, [])
  | (t, ev) :: rest, b =>
    if timeout ≤ t then (.err .timedOut b, (t, ev) :: rest)
    else
      match ev with
      | .noData => expectLoop pats timeout rest b
      | .invalid => expectLoop pats timeout rest b
      | .char c =>
        let b' := b.push c
        match (setMatches pats b').head? with
        | some n => (.ok n b', rest)
        | none => expectLoop pats timeout rest b'

/-- Model of `Process::expect` (`src/base.rs` lines 144-176): compile the
pattern set — the `unwrap()` on line 151 turns a compilation failure into
a panic before any read happens, leaving the whole trace unconsumed — then
run the scan loop with a fresh empty accumulator (`let mut b =
String::new()`, line 153: no buffer is carried in from any earlier
call). -/
def expect (ns : List Needle) (timeout : Nat) (trace : Trace) : Outcome × Trace :=
  match regexSetNew ns with
  | none => (.panicked, trace)
  | some pats => expectLoop pats timeout trace ""

/-- The characters successfully decoded from a segment of the trace, in
order; `noData` and `invalid` events contribute nothing. -/
def decodedChars : Trace → List Char
  | [] => []
  | (_, .char c) :: rest => c :: decodedChars rest
  | (_, .noData) :: rest => decodedChars rest
  | (_, .invalid) :: rest => decodedChars rest

/-- A trace contains an iteration whose observed elapsed time has reached
the timeout, so the loop is guaranteed to stop (by match or by timeout) no
later than that iteration. -/
def hasBreak (timeout : Nat) (trace : Trace) : Prop :=
  ∃ e ∈ trace, timeout ≤ e.1

instance (timeout : Nat) (trace : Trace) : Decidable (hasBreak timeout trace) := by
  unfold hasBreak; infer_instance

/-- Standard UTF-8 encoding of one character as its byte values (what
Rust's `str::as_bytes` exposes per character), written over `Nat`. -/
def utf8EncodeCharNat (c : Char) : List Nat :=
  let v := c.toNat
  if v < 0x80 then [v]
  else if v < 0x800 then
    [0xC0 + v / 0x40, 0x80 + v % 0x40]
  else if v < 0x10000 then
    [0xE0 + v / 0x1000, 0x80 + v / 0x40 % 0x40, 0x80 + v % 0x40]
  else
    [0xF0 + v / 0x40000, 0x80 + v / 0x1000 % 0x40, 0x80 + v / 0x40 % 0x40,
     0x80 + v % 0x40]

/-- Model of `data.as_bytes()` (`src/base.rs` line 70): the UTF-8 bytes of
the string, nothing prepended or appended. -/
def utf8Bytes (s : String) : List Nat :=
  s.data.foldr (fun c acc => utf8EncodeCharNat c ++ acc) []

/-- Model of the write-side failure surfaced by `emit`: the subprocess's
stdin pipe rejected part of the write (reader closed / process exited). -/
inductive WriteError where
  | brokenPipe
  deriving DecidableEq

/-- The subprocess's stdin pipe: the bytes accepted so far, and how many
more bytes the operating system will accept before the write fails
(`room = 0` models a closed pipe). -/
structure StdinPipe where
  accepted : List Nat
  room : Nat
  deriving DecidableEq

/-- Model of `stdin.write_all(bytes)` as called by `Process::emit`
(`src/base.rs` line 70), per the `std::io::Write::write_all` contract: the
call returns `Ok` exactly when the whole buffer is accepted, and surfaces
the underlying I/O failure (here: the pipe ran out of room, e.g. the
subprocess exited) as an error, with nothing retried beyond the buffer. -/
def writeAll (bytes : List Nat) (p : StdinPipe) : Except WriteError StdinPipe :=
  if bytes.length ≤ p.room then
    .ok { accepted := p.accepted ++ bytes, room := p.room - bytes.length }
  else
    .error .brokenPipe

/-- Model of `Process::emit` (`src/base.rs` lines 68-71): write exactly
the UTF-8 bytes of `data` to the subprocess's stdin — no framing, no
appended newline — and propagate the write result unchanged. -/
def emit (data : String) (p : StdinPipe) : Except WriteError StdinPipe :=
  writeAll (utf8Bytes data) p

/-- Model of `std::process::Child` as far as the `Drop` impl touches it:
whether the subprocess is still running, which of the three pipe handles
held by the parent are still open, and whether the exit status has been
collected by a `wait` (POSIX: an exited process keeps its process-table
entry, as a zombie, until it is waited on). -/
structure Child where
  running : Bool
  stdinOpen : Bool
  stdoutOpen : Bool
  stderrOpen : Bool
  reaped : Bool
  deriving DecidableEq

/-- The child as `Process::new` constructs it (`src/base.rs` lines 38-50):
running, all three pipes open, not yet waited on (the crate never calls
`wait`). -/
def newChild : Child := { running := true, stdinOpen := true, stdoutOpen := true,
                          stderrOpen := true, reaped := false }

/-- Model of `self.child.kill()` (`src/base.rs` line 185): sends SIGKILL,
stopping the process; it does not wait on it, so the exit status remains
uncollected. -/
def Child.kill (c : Child) : Child := { c with running := false }

/-- Model of `impl Drop for Process` (`src/base.rs` lines 179-187): kill
the child, then the `Child` value itself is dropped, which closes the
parent's three pipe handles.  No `wait` happens anywhere in the crate. -/
def dropProcess (c : Child) : Child :=
  let k := c.kill
  { k with stdinOpen := false, stdoutOpen := false, stderrOpen := false }

/-- POSIX: a process occupies a process-table entry while it is running,
and also after exiting until some `wait` collects its status (zombie). -/
def processTableEntryPresent (c : Child) : Bool := c.running || !c.reaped

/-- All three parent-held pipe handles are closed. -/
def pipesClosed (c : Child) : Bool := !c.stdinOpen && !c.stdoutOpen && !c.stderrOpen

/-! Helper lemmas about the pattern-set search and the scan loop. -/

theorem getD_map_sat (ns : List Needle) (i : Nat) :
    (ns.map (·.sat)).getD i pfalse = (ns.getD i dNeedle).sat := by
  induction ns generalizing i with
  | nil => simp [dNeedle]
  | cons hd rest ih =>
    cases i with
    | zero => simp
    | succ j => simpa using ih j

theorem setMatches_head_none {pats : List Pat} {b : String} :
    (setMatches pats b).head? = none ↔
      ∀ i < pats.length, pats.getD i pfalse b = false := by
  simp only [setMatches, List.head?_eq_none_iff, List.filter_eq_nil_iff,
    List.mem_range, Bool.not_eq_true]

theorem setMatches_sorted (pats : List Pat) (b : String) :
    (setMatches pats b).Pairwise (· < ·) :=
  List.Pairwise.filter _ (List.pairwise_lt_range _)

theorem setMatches_head_some {pats : List Pat} {b : String} {n : Nat}
    (h : (setMatches pats b).head? = some n) :
    n < pats.length ∧ pats.getD n pfalse b = true ∧
      ∀ i < n, pats.getD i pfalse b = false := by
  rcases hl : setMatches pats b with _ | ⟨m, tail⟩
  · rw [hl] at h; simp at h
  · rw [hl] at h
    simp only [List.head?_cons, Option.some.injEq] at h
    rw [h] at hl
    have hmem : n ∈ setMatches pats b := by rw [hl]; exact List.mem_cons_self _ _
    have hn : n ∈ List.range pats.length ∧ pats.getD n pfalse b = true := by
      simpa [setMatches] using List.mem_filter.mp hmem
    refine ⟨List.mem_range.mp hn.1, hn.2, ?_⟩
    intro i hi
    by_contra hne
    have hit : pats.getD i pfalse b = true := by
      cases hval : pats.getD i pfalse b
      · exact absurd hval hne
      · rfl
    have himem : i ∈ setMatches pats b :=
      List.mem_filter.mpr ⟨List.mem_range.mpr (hi.trans (List.mem_range.mp hn.1)), hit⟩
    rw [hl] at himem
    have hpw := setMatches_sorted pats b
    rw [hl] at hpw
    rcases List.mem_cons.mp himem with hin | hin
    · exact absurd hin (Nat.ne_of_lt hi)
    · exact absurd (List.rel_of_pairwise_cons hpw hin) (Nat.lt_asymm hi)

theorem pref_snoc {α : Type} {l xs : List α} {x : α} (h : l <+: xs ++ [x]) :
    l <+: xs ∨ l = xs ++ [x] := by
  rcases Nat.lt_or_ge xs.length l.length with hge | hlt
  · right
    exact h.eq_of_length_le (by simpa using hge)
  · left
    have heq := List.prefix_iff_eq_take.mp h
    rw [List.take_append_of_le_length hlt] at heq
    exact heq ▸ List.take_prefix _ _

theorem expectLoop_consumed (pats : List Pat) (T : Nat) :
    ∀ (trace : Trace) (b : String),
      ∃ pre, trace = pre ++ (expectLoop pats T trace b).2 ∧
        (expectLoop pats T trace b).1.accOf =
          some (String.mk (b.data ++ decodedChars pre)) := by
  intro trace
  induction trace with
  | nil =>
    intro b
    exact ⟨[], by simp [expectLoop, decodedChars, Outcome.accOf]⟩
  | cons head rest ih =>
    intro b
    obtain ⟨t, ev⟩ := head
    by_cases ht : T ≤ t
    · exact ⟨[], by simp [expectLoop, ht, decodedChars, Outcome.accOf]⟩
    · cases ev with
      | noData =>
        obtain ⟨pre, h1, h2⟩ := ih b
        refine ⟨(t, .noData) :: pre, ?_, ?_⟩
        · simpa [expectLoop, ht] using congrArg (List.cons (t, ReadEvent.noData)) h1
        · simpa [expectLoop, ht, decodedChars] using h2
      | invalid =>
        obtain ⟨pre, h1, h2⟩ := ih b
        refine ⟨(t, .invalid) :: pre, ?_, ?_⟩
        · simpa [expectLoop, ht] using congrArg (List.cons (t, ReadEvent.invalid)) h1
        · simpa [expectLoop, ht, decodedChars] using h2
      | char c =>
        rcases hm : (setMatches pats (b.push c)).head? with _ | n
        · obtain ⟨pre, h1, h2⟩ := ih (b.push c)
          refine ⟨(t, .char c) :: pre, ?_, ?_⟩
          · simpa [expectLoop, ht, hm] using congrArg (List.cons (t, ReadEvent.char c)) h1
          · rw [String.data_push] at h2
            simpa [expectLoop, ht, hm, decodedChars] using h2
        · refine ⟨[(t, .char c)], ?_, ?_⟩
          · simp [expectLoop, ht, hm]
          · simp [expectLoop, ht, hm, decodedChars, Outcome.accOf]
            exact String.ext (by simp)

theorem expectLoop_ok_first (pats : List Pat) (T : Nat) :
    ∀ (trace : Trace) (b : String) {n : Nat} {acc : String} {rest : Trace},
      expectLoop pats T trace b = (.ok n acc, rest) →
      n < pats.length ∧ pats.getD n pfalse acc = true ∧
        ∀ i < n, pats.getD i pfalse acc = false := by
  intro trace
  induction trace with
  | nil => intro b n acc rest h; simp [expectLoop] at h
  | cons head rest ih =>
    intro b n acc r h
    obtain ⟨t, ev⟩ := head
    by_cases ht : T ≤ t
    · simp [expectLoop, ht] at h
    · cases ev with
      | noData => exact ih b (by simpa [expectLoop, ht] using h)
      | invalid => exact ih b (by simpa [expectLoop, ht] using h)
      | char c =>
        rcases hm : (setMatches pats (b.push c)).head? with _ | m
        · exact ih (b.push c) (by simpa [expectLoop, ht, hm] using h)
        · have hs := setMatches_head_some hm
          simp only [expectLoop, if_neg ht, hm, Prod.mk.injEq, Outcome.ok.injEq] at h
          obtain ⟨⟨hmn, hacc⟩, -⟩ := h
          subst hmn; subst hacc
          exact hs

theorem expectLoop_shortest (pats : List Pat) (T : Nat) :
    ∀ (trace : Trace) (b : String),
      (∀ l, l ≠ [] → l <+: b.data →
        ∀ i < pats.length, pats.getD i pfalse (String.mk l) = false) →
      ∀ {n : Nat} {acc : String} {rest : Trace},
        expectLoop pats T trace b = (.ok n acc, rest) →
        acc.data ≠ [] ∧
          ∀ l, l ≠ [] → l <+: acc.data → l ≠ acc.data →
            ∀ i < pats.length, pats.getD i pfalse (String.mk l) = false := by
  intro trace
  induction trace with
  | nil => intro b _ n acc rest h; simp [expectLoop] at h
  | cons head rest ih =>
    intro b hinv n acc r h
    obtain ⟨t, ev⟩ := head
    by_cases ht : T ≤ t
    · simp [expectLoop, ht] at h
    · cases ev with
      | noData => exact ih b hinv (by simpa [expectLoop, ht] using h)
      | invalid => exact ih b hinv (by simpa [expectLoop, ht] using h)
      | char c =>
        rcases hm : (setMatches pats (b.push c)).head? with _ | m
        · refine ih (b.push c) ?_ (by simpa [expectLoop, ht, hm] using h)
          intro l hl hpre i hi
          rw [String.data_push] at hpre
          rcases pref_snoc hpre with hp | hp
          · exact hinv l hl hp i hi
          · have : String.mk l = b.push c := by
              rw [hp, ← String.data_push]
            rw [this]
            exact (setMatches_head_none.mp hm) i hi
        · simp only [expectLoop, if_neg ht, hm, Prod.mk.injEq, Outcome.ok.injEq] at h
          obtain ⟨⟨-, hacc⟩, -⟩ := h
          subst hacc
          refine ⟨by simp, ?_⟩
          intro l hl hpre hne i hi
          rw [String.data_push] at hpre
          rcases pref_snoc hpre with hp | hp
          · exact hinv l hl hp i hi
          · exact absurd (by rw [hp, String.data_push]) hne

theorem expectLoop_err_kind (pats : List Pat) (T : Nat) :
    ∀ (trace : Trace) (b : String) {k : ErrKind} {p : String} {rest : Trace},
      expectLoop pats T trace b = (.err k p, rest) → k = .timedOut := by
  intro trace
  induction trace with
  | nil => intro b k p rest h; simp [expectLoop] at h
  | cons head rest ih =>
    intro b k p r h
    obtain ⟨t, ev⟩ := head
    by_cases ht : T ≤ t
    · simp only [expectLoop, if_pos ht, Prod.mk.injEq, Outcome.err.injEq] at h
      exact h.1.1.symm
    · cases ev with
      | noData => exact ih b (by simpa [expectLoop, ht] using h)
      | invalid => exact ih b (by simpa [expectLoop, ht] using h)
      | char c =>
        rcases hm : (setMatches pats (b.push c)).head? with _ | m
        · exact ih (b.push c) (by simpa [expectLoop, ht, hm] using h)
        · simp [expectLoop, ht, hm] at h

theorem expectLoop_noData (pats : List Pat) (T : Nat) :
    ∀ (trace : Trace) (b : String),
      (∀ e ∈ trace, e.2 = ReadEvent.noData) → hasBreak T trace →
      (expectLoop pats T trace b).1 = .err .timedOut b := by
  intro trace
  induction trace with
  | nil => intro b _ hbk; exact absurd hbk (by simp [hasBreak])
  | cons head rest ih =>
    intro b hall hbk
    obtain ⟨t, ev⟩ := head
    by_cases ht : T ≤ t
    · simp [expectLoop, ht]
    · have hev : ev = .noData := hall (t, ev) (List.mem_cons_self _ _)
      subst hev
      have hbk2 : hasBreak T rest := by
        obtain ⟨e, hmem, hT⟩ := hbk
        rcases List.mem_cons.mp hmem with he | he
        · exact absurd (by rw [he] at hT; exact hT) ht
        · exact ⟨e, he, hT⟩
      have := ih b (fun e he => hall e (List.mem_cons_of_mem _ he)) hbk2
      simpa [expectLoop, ht] using this

theorem expectLoop_terminal (pats : List Pat) (T : Nat) :
    ∀ (trace : Trace) (b : String), hasBreak T trace →
      (∃ n acc rest, expectLoop pats T trace b = (.ok n acc, rest)) ∨
      (∃ acc rest, expectLoop pats T trace b = (.err .timedOut acc, rest)) := by
  intro trace
  induction trace with
  | nil => intro b hbk; exact absurd hbk (by simp [hasBreak])
  | cons head rest ih =>
    intro b hbk
    obtain ⟨t, ev⟩ := head
    by_cases ht : T ≤ t
    · exact Or.inr ⟨b, (t, ev) :: rest, by simp [expectLoop, ht]⟩
    · have hbk2 : hasBreak T rest := by
        obtain ⟨e, hmem, hT⟩ := hbk
        rcases List.mem_cons.mp hmem with he | he
        · exact absurd (by rw [he] at hT; exact hT) ht
        · exact ⟨e, he, hT⟩
      cases ev with
      | noData => simpa [expectLoop, ht] using ih b hbk2
      | invalid => simpa [expectLoop, ht] using ih b hbk2
      | char c =>
        rcases hm : (setMatches pats (b.push c)).head? with _ | m
        · simpa [expectLoop, ht, hm] using ih (b.push c) hbk2
        · exact Or.inl ⟨m, b.push c, rest, by simp [expectLoop, ht, hm]⟩

theorem expect_acc (ns : List Needle) (T : Nat) (trace : Trace) {out : Outcome}
    {rest : Trace} (hv : ns.all (·.valid) = true)
    (h : expect ns T trace = (out, rest)) :
    ∃ pre, trace = pre ++ rest ∧ out.accOf = some (String.mk (decodedChars pre)) := by
  have hE : expectLoop (ns.map (·.sat)) T trace "" = (out, rest) := by
    simpa [expect, regexSetNew, hv] using h
  obtain ⟨pre, h1, h2⟩ := expectLoop_consumed (ns.map (·.sat)) T trace ""
  rw [hE] at h1 h2
  exact ⟨pre, h1, by simpa using h2⟩

theorem expect_suffix (ns : List Needle) (T : Nat) (trace : Trace) {out : Outcome}
    {rest : Trace} (h : expect ns T trace = (out, rest)) :
    ∃ pre, trace = pre ++ rest := by
  by_cases hv : ns.all (·.valid)
  · obtain ⟨pre, h1, -⟩ := expect_acc ns T trace hv h
    exact ⟨pre, h1⟩
  · simp only [expect, regexSetNew] at h
    rw [if_neg (by simpa using hv)] at h
    injection h with h1 h2
    exact ⟨[], by simp [← h2]⟩

/-! Claim theorems. -/

/-- C1: whenever `expect` returns a match, the returned index is that of
the first pattern in caller-supplied order — the lowest index in the
needle list — whose regular expression matches (somewhere inside, per
`RegexSet` search semantics) the accumulator, and the returned text is the
entire accumulator of this call: all characters decoded from the consumed
segment of the stream, not just the matched substring. -/
theorem claim_c1 (ns : List Needle) (T : Nat) (trace : Trace)
    {n : Nat} {acc : String} {rest : Trace}
    (h : expect ns T trace = (.ok n acc, rest)) :
    (∃ pre, trace = pre ++ rest ∧ acc = String.mk (decodedChars pre)) ∧
    n < ns.length ∧ (ns.getD n dNeedle).sat acc = true ∧
      ∀ i < n, (ns.getD i dNeedle).sat acc = false := by
  by_cases hv : ns.all (·.valid)
  · have hE : expectLoop (ns.map (·.sat)) T trace "" = (.ok n acc, rest) := by
      simpa [expect, regexSetNew, hv] using h
    have hfirst := expectLoop_ok_first (ns.map (·.sat)) T trace "" hE
    obtain ⟨pre, h1, h2⟩ := expect_acc ns T trace hv h
    refine ⟨⟨pre, h1, by simpa [Outcome.accOf] using h2⟩, ?_, ?_, ?_⟩
    · simpa using hfirst.1
    · rw [← getD_map_sat]; exact hfirst.2.1
    · intro i hi; rw [← getD_map_sat]; exact hfirst.2.2 i hi
  · simp [expect, regexSetNew, hv] at h

/-- C1 witness: with the single needle matching exactly the length-two
haystacks, scanning the stream h, i returns index 0 with accumulator
"hi". -/
theorem claim_c1_witness :
    (∃ pre, ([(0, ReadEvent.char 'h'), (1, ReadEvent.char 'i'),
        (9, ReadEvent.noData)] : Trace) = pre ++ [(9, ReadEvent.noData)] ∧
      "hi" = String.mk (decodedChars pre)) ∧
    0 < ([{ valid := true, sat := fun s => decide (s.length = 2) }] :
        List Needle).length ∧
    (([{ valid := true, sat := fun s => decide (s.length = 2) }] :
        List Needle).getD 0 dNeedle).sat "hi" = true ∧
    ∀ i < 0, (([{ valid := true, sat := fun s => decide (s.length = 2) }] :
        List Needle).getD i dNeedle).sat "hi" = false :=
  @claim_c1 [{ valid := true, sat := fun s => decide (s.length = 2) }] 5
    [(0, .char 'h'), (1, .char 'i'), (9, .noData)] 0 "hi" [(9, .noData)]
    (by decide)

/-- C2 counterexample: the claim fails for a pattern whose regular
expression matches the empty string (for example the regex "", which the
`regex` crate compiles and which matches every haystack).  With such a
pattern the shortest prefix of the consumed character stream achieving a
match is the empty prefix, yet the code only tests the accumulator after
appending a character, so it returns the one-character accumulator "a",
not the empty shortest matching prefix. -/
theorem claim_c2_counterexample :
    (expect [{ valid := true, sat := fun _ => true }] 5
        [(0, ReadEvent.char 'a')]) = (.ok 0 "a", []) ∧
    Needle.sat { valid := true, sat := fun _ => true } "" = true ∧
    ("a" : String) ≠ "" := ⟨by decide, rfl, by decide⟩

/-- C2 amended: whenever `expect` returns a match, the returned
accumulator is the shortest NONEMPTY prefix of the decoded character
stream consumed by this call for which some pattern achieves a match: the
accumulator is nonempty, some pattern matches it, and no pattern matches
any shorter nonempty prefix (the accumulator is tested after each
successfully appended character, so a match is detected at the earliest
character at which the engine tests at all). -/
theorem claim_c2_amended (ns : List Needle) (T : Nat) (trace : Trace)
    {n : Nat} {acc : String} {rest : Trace}
    (h : expect ns T trace = (.ok n acc, rest)) :
    acc ≠ "" ∧ (∃ i, i < ns.length ∧ (ns.getD i dNeedle).sat acc = true) ∧
      ∀ l, l ≠ [] → l <+: acc.data → l ≠ acc.data →
        ∀ i < ns.length, (ns.getD i dNeedle).sat (String.mk l) = false := by
  by_cases hv : ns.all (·.valid)
  · have hE : expectLoop (ns.map (·.sat)) T trace "" = (.ok n acc, rest) := by
      simpa [expect, regexSetNew, hv] using h
    have hfirst := expectLoop_ok_first (ns.map (·.sat)) T trace "" hE
    have hmin := expectLoop_shortest (ns.map (·.sat)) T trace ""
      (by intro l hl hp; exact absurd (List.prefix_nil.mp hp) hl) hE
    refine ⟨?_, ?_, ?_⟩
    · intro hacc
      exact hmin.1 (by rw [hacc])
    · exact ⟨n, by simpa using hfirst.1, by rw [← getD_map_sat]; exact hfirst.2.1⟩
    · intro l hl hp hne i hi
      rw [← getD_map_sat]
      exact hmin.2 l hl hp hne i (by simpa using hi)
  · simp [expect, regexSetNew, hv] at h

/-- C2 amended witness: with the single needle matching exactly the
length-two haystacks, the returned accumulator "hi" is nonempty, matched,
and no nonempty proper prefix of it matches. -/
theorem claim_c2_amended_witness :
    ("hi" : String) ≠ "" ∧
    (∃ i, i < ([{ valid := true, sat := fun s => decide (s.length = 2) }] :
        List Needle).length ∧
      (([{ valid := true, sat := fun s => decide (s.length = 2) }] :
        List Needle).getD i dNeedle).sat "hi" = true) ∧
    ∀ l, l ≠ [] → l <+: ("hi" : String).data → l ≠ ("hi" : String).data →
      ∀ i < ([{ valid := true, sat := fun s => decide (s.length = 2) }] :
          List Needle).length,
        (([{ valid := true, sat := fun s => decide (s.length = 2) }] :
          List Needle).getD i dNeedle).sat (String.mk l) = false :=
  @claim_c2_amended [{ valid := true, sat := fun s => decide (s.length = 2) }] 5
    [(0, .char 'h'), (1, .char 'i'), (9, .noData)] 0 "hi" [(9, .noData)]
    (by decide)

/-- C3: whenever `expect` ends with an error, that error is the timeout
error and its payload is exactly the partial accumulator collected during
this call: all characters decoded from the consumed segment of the
stream.  Nothing read during the call is lost on timeout. -/
theorem claim_c3 (ns : List Needle) (T : Nat) (trace : Trace)
    {k : ErrKind} {payload : String} {rest : Trace}
    (h : expect ns T trace = (.err k payload, rest)) :
    k = .timedOut ∧
      ∃ pre, trace = pre ++ rest ∧ payload = String.mk (decodedChars pre) := by
  by_cases hv : ns.all (·.valid)
  · have hE : expectLoop (ns.map (·.sat)) T trace "" = (.err k payload, rest) := by
      simpa [expect, regexSetNew, hv] using h
    obtain ⟨pre, h1, h2⟩ := expect_acc ns T trace hv h
    exact ⟨expectLoop_err_kind (ns.map (·.sat)) T trace "" hE, pre, h1,
      by simpa [Outcome.accOf] using h2⟩
  · simp [expect, regexSetNew, hv] at h

/-- C3 witness: a never-matching needle against the stream x followed by a
break iteration times out with payload exactly "x". -/
theorem claim_c3_witness :
    ErrKind.timedOut = ErrKind.timedOut ∧
    ∃ pre, ([(0, ReadEvent.char 'x'), (7, ReadEvent.noData)] : Trace) =
        pre ++ [(7, ReadEvent.noData)] ∧
      "x" = String.mk (decodedChars pre) :=
  @claim_c3 [{ valid := true, sat := fun _ => false }] 5
    [(0, .char 'x'), (7, .noData)] .timedOut "x" [(7, .noData)] (by decide)

/-- C4: a call on a valid pattern set whose trace reaches the timeout ends
in exactly one of the two terminal outcomes — some pattern matched, or
timeout — and the events consumed by the call and by any later call on the
same stream are disjoint, contiguous segments: the first call consumes
pre1, the second pre2, with the stream splitting as pre1 ++ pre2 ++ rest2.
No character is seen twice and no buffer survives between the calls (the
second call starts from the empty accumulator by definition of
`expect`). -/
theorem claim_c4 (ns1 ns2 : List Needle) (T1 T2 : Nat) (trace : Trace)
    {out1 out2 : Outcome} {rest1 rest2 : Trace}
    (hv : ns1.all (·.valid) = true) (hbk : hasBreak T1 trace)
    (h1 : expect ns1 T1 trace = (out1, rest1))
    (h2 : expect ns2 T2 rest1 = (out2, rest2)) :
    ((∃ n a, out1 = .ok n a) ∨ (∃ a, out1 = .err .timedOut a)) ∧
    ¬ ((∃ n a, out1 = .ok n a) ∧ (∃ a, out1 = .err .timedOut a)) ∧
    ∃ pre1 pre2, trace = pre1 ++ pre2 ++ rest2 ∧ rest1 = pre2 ++ rest2 := by
  have hE : expectLoop (ns1.map (·.sat)) T1 trace "" = (out1, rest1) := by
    simpa [expect, regexSetNew, hv] using h1
  refine ⟨?_, ?_, ?_⟩
  · rcases expectLoop_terminal (ns1.map (·.sat)) T1 trace "" hbk with hc | hc
    · obtain ⟨n, a, r, hr⟩ := hc
      rw [hE] at hr
      exact Or.inl ⟨n, a, ((Prod.mk.injEq _ _ _ _).mp hr).1⟩
    · obtain ⟨a, r, hr⟩ := hc
      rw [hE] at hr
      exact Or.inr ⟨a, ((Prod.mk.injEq _ _ _ _).mp hr).1⟩
  · rintro ⟨⟨n, a, hok⟩, ⟨a2, herr⟩⟩
    rw [hok] at herr
    exact Outcome.noConfusion herr
  · obtain ⟨pre1, hp1⟩ := expect_suffix ns1 T1 trace h1
    obtain ⟨pre2, hp2⟩ := expect_suffix ns2 T2 rest1 h2
    exact ⟨pre1, pre2, by rw [hp1, hp2, List.append_assoc], hp2⟩

/-- C4 witness: a first, never-matching call on the stream consumes x and
times out; a second call with a length-two matcher consumes the next
segment y, z and matches; the stream splits into the two consumed
segments followed by the final remainder. -/
theorem claim_c4_witness :
    ((∃ n a, Outcome.err ErrKind.timedOut "x" = .ok n a) ∨
      (∃ a, Outcome.err ErrKind.timedOut "x" = .err .timedOut a)) ∧
    ¬ ((∃ n a, Outcome.err ErrKind.timedOut "x" = .ok n a) ∧
      (∃ a, Outcome.err ErrKind.timedOut "x" = .err .timedOut a)) ∧
    ∃ pre1 pre2,
      ([(0, ReadEvent.char 'x'), (7, ReadEvent.noData), (8, ReadEvent.char 'y'),
        (9, ReadEvent.char 'z')] : Trace) = pre1 ++ pre2 ++ [] ∧
      ([(7, ReadEvent.noData), (8, ReadEvent.char 'y'),
        (9, ReadEvent.char 'z')] : Trace) = pre2 ++ [] :=
  @claim_c4 [{ valid := true, sat := fun _ => false }]
    [{ valid := true, sat := fun s => decide (s.length = 2) }] 5 20
    [(0, .char 'x'), (7, .noData), (8, .char 'y'), (9, .char 'z')]
    (.err .timedOut "x") (.ok 0 "yz")
    [(7, .noData), (8, .char 'y'), (9, .char 'z')] []
    (by decide) (by decide) (by decide) (by decide)

/-- C5 counterexample: with an invalid needle, `expect` does fail at
pattern-set construction before any input is consumed, but the failure is
the panic of the `unwrap()` on `RegexSet::new` escaping the call, not an
explicit failure value returned to the immediate caller: the outcome is
`panicked`, which is neither an `err` return nor an `ok` return. -/
theorem claim_c5_counterexample :
    (expect [{ valid := false, sat := pfalse }] 5 [(0, ReadEvent.char 'a')]) =
      (.panicked, [(0, ReadEvent.char 'a')]) ∧
    (∀ k p, Outcome.panicked ≠ Outcome.err k p) ∧
    (∀ n a, Outcome.panicked ≠ Outcome.ok n a) :=
  ⟨by decide, fun k p h => Outcome.noConfusion h, fun n a h => Outcome.noConfusion h⟩

/-- C5 amended: for every needle sequence that does not compile into a
valid pattern set, `expect` fails immediately at construction of the
pattern set, before any I/O occurs — the whole trace is left unconsumed —
but the failure escapes as a panic (the `unwrap()` on line 151), not as an
explicit failure value returned to the immediate caller. -/
theorem claim_c5_amended (ns : List Needle) (T : Nat) (trace : Trace)
    (h : ns.all (·.valid) = false) :
    expect ns T trace = (.panicked, trace) := by
  simp [expect, regexSetNew, h]

/-- C5 amended witness: a single invalid needle panics with the trace
untouched. -/
theorem claim_c5_amended_witness :
    expect [{ valid := false, sat := pfalse }] 5 [(0, ReadEvent.char 'a')] =
      (.panicked, [(0, ReadEvent.char 'a')]) :=
  claim_c5_amended [{ valid := false, sat := pfalse }] 5
    [(0, .char 'a')] (by decide)

/-- C6: at any point of the scan (any accumulator), when the next unit of
the stream is not a valid character, that unit is silently consumed and
scanning continues exactly as if it were absent: same outcome, same
remainder, the accumulator untouched, no error raised; and the unit
contributes no character to the decoded stream, so no partial character is
ever appended. -/
theorem claim_c6 (pats : List Pat) (T t : Nat) (rest : Trace) (b : String)
    (ht : t < T) :
    expectLoop pats T ((t, .invalid) :: rest) b = expectLoop pats T rest b ∧
    decodedChars ((t, .invalid) :: rest) = decodedChars rest := by
  constructor
  · simp [expectLoop, Nat.not_le.mpr ht]
  · simp [decodedChars]

/-- C6 witness: an invalid unit in front of a one-character stream is
skipped, leaving the scan of the rest unchanged. -/
theorem claim_c6_witness :
    expectLoop [fun s => decide (s.length = 1)] 5
        [(0, .invalid), (1, .char 'a')] "" =
      expectLoop [fun s => decide (s.length = 1)] 5 [(1, .char 'a')] "" ∧
    decodedChars [(0, .invalid), (1, .char 'a')] =
      decodedChars [(1, .char 'a')] :=
  claim_c6 [fun s => decide (s.length = 1)] 5 0 [(1, .char 'a')] "" (by decide)

/-- C7: `emit` writes exactly the UTF-8 bytes of the text to the
subprocess's stdin pipe — no framing, no appended newline — and returns
success precisely when every byte is accepted; when the pipe cannot accept
the whole write (partial write or closed pipe), the underlying I/O failure
is surfaced as an error. -/
theorem claim_c7 (data : String) (p : StdinPipe) :
    (∀ q, emit data p = .ok q →
      q.accepted = p.accepted ++ utf8Bytes data ∧
        (utf8Bytes data).length ≤ p.room) ∧
    (p.room < (utf8Bytes data).length → emit data p = .error .brokenPipe) := by
  constructor
  · intro q hq
    by_cases hr : (utf8Bytes data).length ≤ p.room
    · simp only [emit, writeAll, if_pos hr, Except.ok.injEq] at hq
      exact ⟨by rw [← hq], hr⟩
    · simp [emit, writeAll, if_neg hr] at hq
  · intro hr
    simp [emit, writeAll, Nat.not_le.mpr hr]

/-- C7 witness: writing "Hello" into a pipe with room for five bytes
accepts exactly the five UTF-8 bytes of "Hello"; into a pipe with room for
four bytes it surfaces the broken-pipe error. -/
theorem claim_c7_witness :
    (({ accepted := [72, 101, 108, 108, 111], room := 0 } : StdinPipe).accepted =
        ([] : List Nat) ++ utf8Bytes "Hello" ∧
      (utf8Bytes "Hello").length ≤ 5) ∧
    emit "Hello" { accepted := [], room := 4 } = .error .brokenPipe :=
  ⟨(claim_c7 "Hello" { accepted := [], room := 5 }).1
      { accepted := [72, 101, 108, 108, 111], room := 0 } (by rfl),
    (claim_c7 "Hello" { accepted := [], room := 4 }).2 (by decide)⟩

/-- C8 counterexample: dropping the session kills the child but never
waits on it, so the child's process-table entry is not released by this
layer — the killed child stays in the process table as a zombie until the
parent itself exits.  The claim that no process resource, including the
process-table entry, is leaked is therefore false for the child as
`Process::new` creates it. -/
theorem claim_c8_counterexample :
    processTableEntryPresent (dropProcess newChild) = true := by decide

/-- C8 amended: after teardown the subprocess is no longer running and the
parent's three pipe handles are closed, but the process-table entry is not
released by this layer: `drop` issues `kill` and never `wait`s, so the
reaped flag is unchanged and a child that was never waited on (as
`Process::new` produces and the crate maintains) remains present in the
process table as a zombie. -/
theorem claim_c8_amended (c : Child) :
    (dropProcess c).running = false ∧ pipesClosed (dropProcess c) = true ∧
    (dropProcess c).reaped = c.reaped ∧
    (c.reaped = false → processTableEntryPresent (dropProcess c) = true) := by
  refine ⟨rfl, rfl, rfl, ?_⟩
  intro h
  simp [processTableEntryPresent, dropProcess, Child.kill, h]

/-- C8 amended witness: the freshly spawned child, once dropped, is
stopped with closed pipes yet still occupies a process-table entry. -/
theorem claim_c8_amended_witness :
    (dropProcess newChild).running = false ∧
    pipesClosed (dropProcess newChild) = true ∧
    (dropProcess newChild).reaped = newChild.reaped ∧
    (newChild.reaped = false →
      processTableEntryPresent (dropProcess newChild) = true) :=
  claim_c8_amended newChild

/-- C9: `expect` never produces an error outcome other than the timeout —
every error it returns carries `ErrorKind::TimedOut`, so the I/O error
named in the signature is unreachable — and in particular on a stream at
end of file (every read yields no data) it does not return early: it keeps
polling until an iteration reaches the timeout and then returns the
timeout error carrying the (empty) accumulator. -/
theorem claim_c9 (ns : List Needle) (T : Nat) (trace : Trace) :
    (∀ k p, (expect ns T trace).1 = .err k p → k = .timedOut) ∧
    (ns.all (·.valid) = true → (∀ e ∈ trace, e.2 = ReadEvent.noData) →
      hasBreak T trace → (expect ns T trace).1 = .err .timedOut "") := by
  constructor
  · intro k p h
    by_cases hv : ns.all (·.valid)
    · rcases hE : expectLoop (ns.map (·.sat)) T trace "" with ⟨o, r⟩
      have ho : o = .err k p := by
        have : (expect ns T trace).1 = o := by
          simp [expect, regexSetNew, hv, hE]
        rw [← this, h]
      rw [ho] at hE
      exact expectLoop_err_kind (ns.map (·.sat)) T trace "" hE
    · have : (expect ns T trace).1 = .panicked := by
        simp [expect, regexSetNew, hv]
      rw [this] at h
      exact Outcome.noConfusion h
  · intro hv hall hbk
    have := expectLoop_noData (ns.map (·.sat)) T trace "" hall hbk
    simpa [expect, regexSetNew, hv] using this

/-- C9 witness: on an all-quiet stream that reaches the timeout, the call
returns the timeout error with the empty accumulator, and the error kind
of that outcome is indeed the timeout kind. -/
theorem claim_c9_witness :
    ErrKind.timedOut = ErrKind.timedOut ∧
    (expect [{ valid := true, sat := fun _ => false }] 5
        [(1, ReadEvent.noData), (7, ReadEvent.noData)]).1 =
      .err .timedOut "" :=
  ⟨(claim_c9 [{ valid := true, sat := fun _ => false }] 5
      [(1, .noData), (7, .noData)]).1 .timedOut "" (by decide),
    (claim_c9 [{ valid := true, sat := fun _ => false }] 5
      [(1, .noData), (7, .noData)]).2 (by decide) (by decide) (by decide)⟩

/-- C10: the empty needle sequence compiles successfully into the empty
pattern set, the empty set matches no haystack, and a call with it never
returns a match and never panics: once the trace reaches the timeout it
ends in the timeout error carrying exactly what was decoded from the
consumed segment of the stream. -/
theorem claim_c10 (T : Nat) (trace : Trace) :
    regexSetNew [] = some [] ∧
    (∀ b, setMatches ([] : List Pat) b = []) ∧
    (∀ n a, (expect [] T trace).1 ≠ .ok n a) ∧
    (expect [] T trace).1 ≠ .panicked ∧
    (hasBreak T trace →
      ∃ payload rest pre, expect [] T trace = (.err .timedOut payload, rest) ∧
        trace = pre ++ rest ∧ payload = String.mk (decodedChars pre)) := by
  have hexp : expect [] T trace = expectLoop [] T trace "" := by
    simp [expect, regexSetNew]
  refine ⟨rfl, fun b => by simp [setMatches], ?_, ?_, ?_⟩
  · intro n a h
    rcases hE : expectLoop ([] : List Pat) T trace "" with ⟨o, r⟩
    have ho : o = .ok n a := by
      rw [hexp, hE] at h
      exact h
    rw [ho] at hE
    have := expectLoop_ok_first ([] : List Pat) T trace "" hE
    exact Nat.not_lt_zero n (by simpa using this.1)
  · intro h
    obtain ⟨pre, -, h2⟩ := expect_acc [] T trace rfl
      (by rw [hexp] : expect [] T trace =
        ((expectLoop [] T trace "").1, (expectLoop [] T trace "").2))
    rw [hexp] at h
    rw [h] at h2
    exact Option.noConfusion h2
  · intro hbk
    rcases hE : expectLoop ([] : List Pat) T trace "" with ⟨o, r⟩
    rcases expectLoop_terminal ([] : List Pat) T trace "" hbk with hc | hc
    · obtain ⟨n, a, r2, hr⟩ := hc
      have := expectLoop_ok_first ([] : List Pat) T trace "" hr
      exact absurd (by simpa using this.1) (Nat.not_lt_zero n)
    · obtain ⟨a, r2, hr⟩ := hc
      obtain ⟨pre, h1, h2⟩ := expect_acc [] T trace rfl
        (by rw [hexp, hr] : expect [] T trace = (.err .timedOut a, r2))
      refine ⟨a, r2, pre, by rw [hexp, hr], h1, ?_⟩
      simpa [Outcome.accOf] using h2

/-- C10 witness: the empty needle list against a one-character stream that
then reaches the timeout ends in the timeout error carrying "x". -/
theorem claim_c10_witness :
    regexSetNew [] = some [] ∧
    (∀ b, setMatches ([] : List Pat) b = []) ∧
    (∀ n a, (expect [] 5 [(0, ReadEvent.char 'x'), (7, ReadEvent.noData)]).1 ≠
      .ok n a) ∧
    (expect [] 5 [(0, ReadEvent.char 'x'), (7, ReadEvent.noData)]).1 ≠
      .panicked ∧
    (hasBreak 5 [(0, ReadEvent.char 'x'), (7, ReadEvent.noData)] →
      ∃ payload rest pre,
        expect [] 5 [(0, ReadEvent.char 'x'), (7, ReadEvent.noData)] =
          (.err .timedOut payload, rest) ∧
        ([(0, ReadEvent.char 'x'), (7, ReadEvent.noData)] : Trace) =
          pre ++ rest ∧
        payload = String.mk (decodedChars pre)) :=
  claim_c10 5 [(0, .char 'x'), (7, .noData)]

end Reckon
